import Mathlib

/-!
# Verification of the YAML serializer core (`src/yaml/src/ser.rs`)

This file gives a shallow embedding of the serializer in `ser.rs`:
the document-tree node type (`Yaml`), the converter that turns a
serde-style value into a node (`convert`), the composite builder state
machines (`SerializeArray`, `SerializeMap`, `SerializeStruct`,
`SerializeTupleVariant`, `SerializeStructVariant`), and the emission
adapter (`to_writer` with `FmtToIoWriter.write_str`), together with
theorems settling the specification claims about them.

Machine integers are embedded as `Int`/`Nat` with explicit range
hypotheses and explicit wrap-around where the source casts (`as i64`).
The Rust `panic!` in `SerializeMap::serialize_value` is embedded as a
distinguished `Panics.panic` outcome, distinct from the recoverable
`Error` channel.
-/

namespace SerdeYaml

/-- Modelled from the spec: the document-tree node type is supplied by the
external document library (`yaml_rust::Yaml`, not part of the sources).
Per §3 it is a closed sum with variants Null, Bool, Int (64-bit signed),
Float (decimal text), String, Sequence, and Mapping, where a Mapping is an
ordered list of key/value pairs with keys unique by structural equality. -/
inductive Yaml : Type where
  | Null : Yaml
  | Boolean (b : Bool) : Yaml
  | Integer (n : Int) : Yaml
  | Real (s : String) : Yaml
  | String (s : String) : Yaml
  | Array (elems : List Yaml) : Yaml
  | Hash (pairs : List (Yaml × Yaml)) : Yaml

mutual

/-- Structural (decidable) equality of document-tree nodes (`Yaml` derives
`PartialEq`/`Eq` in the external library; spelled out here because the
node type nests lists). -/
def decEqYaml : (a b : Yaml) → Decidable (a = b)
  | .Null, .Null => isTrue rfl
  | .Null, .Boolean _ => isFalse (fun h => Yaml.noConfusion h)
  | .Null, .Integer _ => isFalse (fun h => Yaml.noConfusion h)
  | .Null, .Real _ => isFalse (fun h => Yaml.noConfusion h)
  | .Null, .String _ => isFalse (fun h => Yaml.noConfusion h)
  | .Null, .Array _ => isFalse (fun h => Yaml.noConfusion h)
  | .Null, .Hash _ => isFalse (fun h => Yaml.noConfusion h)
  | .Boolean _, .Null => isFalse (fun h => Yaml.noConfusion h)
  | .Boolean a, .Boolean b =>
    match decEq a b with
    | isTrue h => isTrue (h ▸ rfl)
    | isFalse h => isFalse (fun hc => h (Yaml.Boolean.inj hc))
  | .Boolean _, .Integer _ => isFalse (fun h => Yaml.noConfusion h)
  | .Boolean _, .Real _ => isFalse (fun h => Yaml.noConfusion h)
  | .Boolean _, .String _ => isFalse (fun h => Yaml.noConfusion h)
  | .Boolean _, .Array _ => isFalse (fun h => Yaml.noConfusion h)
  | .Boolean _, .Hash _ => isFalse (fun h => Yaml.noConfusion h)
  | .Integer _, .Null => isFalse (fun h => Yaml.noConfusion h)
  | .Integer _, .Boolean _ => isFalse (fun h => Yaml.noConfusion h)
  | .Integer a, .Integer b =>
    match decEq a b with
    | isTrue h => isTrue (h ▸ rfl)
    | isFalse h => isFalse (fun hc => h (Yaml.Integer.inj hc))
  | .Integer _, .Real _ => isFalse (fun h => Yaml.noConfusion h)
  | .Integer _, .String _ => isFalse (fun h => Yaml.noConfusion h)
  | .Integer _, .Array _ => isFalse (fun h => Yaml.noConfusion h)
  | .Integer _, .Hash _ => isFalse (fun h => Yaml.noConfusion h)
  | .Real _, .Null => isFalse (fun h => Yaml.noConfusion h)
  | .Real _, .Boolean _ => isFalse (fun h => Yaml.noConfusion h)
  | .Real _, .Integer _ => isFalse (fun h => Yaml.noConfusion h)
  | .Real a, .Real b =>
    match decEq a b with
    | isTrue h => isTrue (h ▸ rfl)
    | isFalse h => isFalse (fun hc => h (Yaml.Real.inj hc))
  | .Real _, .String _ => isFalse (fun h => Yaml.noConfusion h)
  | .Real _, .Array _ => isFalse (fun h => Yaml.noConfusion h)
  | .Real _, .Hash _ => isFalse (fun h => Yaml.noConfusion h)
  | .String _, .Null => isFalse (fun h => Yaml.noConfusion h)
  | .String _, .Boolean _ => isFalse (fun h => Yaml.noConfusion h)
  | .String _, .Integer _ => isFalse (fun h => Yaml.noConfusion h)
  | .String _, .Real _ => isFalse (fun h => Yaml.noConfusion h)
  | .String a, .String b =>
    match decEq a b with
    | isTrue h => isTrue (h ▸ rfl)
    | isFalse h => isFalse (fun hc => h (Yaml.String.inj hc))
  | .String _, .Array _ => isFalse (fun h => Yaml.noConfusion h)
  | .String _, .Hash _ => isFalse (fun h => Yaml.noConfusion h)
  | .Array _, .Null => isFalse (fun h => Yaml.noConfusion h)
  | .Array _, .Boolean _ => isFalse (fun h => Yaml.noConfusion h)
  | .Array _, .Integer _ => isFalse (fun h => Yaml.noConfusion h)
  | .Array _, .Real _ => isFalse (fun h => Yaml.noConfusion h)
  | .Array _, .String _ => isFalse (fun h => Yaml.noConfusion h)
  | .Array xs, .Array ys =>
    match decEqYamlList xs ys with
    | isTrue h => isTrue (h ▸ rfl)
    | isFalse h => isFalse (fun hc => h (Yaml.Array.inj hc))
  | .Array _, .Hash _ => isFalse (fun h => Yaml.noConfusion h)
  | .Hash _, .Null => isFalse (fun h => Yaml.noConfusion h)
  | .Hash _, .Boolean _ => isFalse (fun h => Yaml.noConfusion h)
  | .Hash _, .Integer _ => isFalse (fun h => Yaml.noConfusion h)
  | .Hash _, .Real _ => isFalse (fun h => Yaml.noConfusion h)
  | .Hash _, .String _ => isFalse (fun h => Yaml.noConfusion h)
  | .Hash _, .Array _ => isFalse (fun h => Yaml.noConfusion h)
  | .Hash xs, .Hash ys =>
    match decEqYamlPairs xs ys with
    | isTrue h => isTrue (h ▸ rfl)
    | isFalse h => isFalse (fun hc => h (Yaml.Hash.inj hc))

/-- Decidable equality of node lists (Sequence children). -/
def decEqYamlList : (a b : List Yaml) → Decidable (a = b)
  | [], [] => isTrue rfl
  | [], _ :: _ => isFalse (fun h => List.noConfusion h)
  | _ :: _, [] => isFalse (fun h => List.noConfusion h)
  | x :: xs, y :: ys =>
    match decEqYaml x y, decEqYamlList xs ys with
    | isTrue h1, isTrue h2 => isTrue (h1 ▸ h2 ▸ rfl)
    | isFalse h1, _ => isFalse (fun hc => h1 (List.cons.inj hc).1)
    | _, isFalse h2 => isFalse (fun hc => h2 (List.cons.inj hc).2)

/-- Decidable equality of pair lists (Mapping entries). -/
def decEqYamlPairs : (a b : List (Yaml × Yaml)) → Decidable (a = b)
  | [], [] => isTrue rfl
  | [], _ :: _ => isFalse (fun h => List.noConfusion h)
  | _ :: _, [] => isFalse (fun h => List.noConfusion h)
  | (k1, v1) :: t1, (k2, v2) :: t2 =>
    match decEqYaml k1 k2, decEqYaml v1 v2, decEqYamlPairs t1 t2 with
    | isTrue h1, isTrue h2, isTrue h3 => isTrue (h1 ▸ h2 ▸ h3 ▸ rfl)
    | isFalse h1, _, _ => isFalse (fun hc => h1 (congrArg Prod.fst (List.cons.inj hc).1))
    | _, isFalse h2, _ => isFalse (fun hc => h2 (congrArg Prod.snd (List.cons.inj hc).1))
    | _, _, isFalse h3 => isFalse (fun hc => h3 (List.cons.inj hc).2)

end

instance : DecidableEq Yaml := decEqYaml

/-- The ordered pair list backing a Mapping node (`yaml::Hash`). -/
abbrev Hash := List (Yaml × Yaml)

/-- Modelled from the spec: `yaml::Hash.insert` of the external document
library. Per §3 a Mapping keeps insertion order and keys unique by
structural equality, so inserting an already-present key replaces its
value in place, and a fresh key is appended at the end. -/
def hashInsert (h : Hash) (k v : Yaml) : Hash :=
  if ∃ p ∈ h, p.1 = k then h.map (fun p => if p.1 = k then (p.1, v) else p)
  else h ++ [(k, v)]

/-- First-match lookup in the ordered pair list of a Mapping. -/
def hashFind : Hash → Yaml → Option Yaml
  | [], _ => Option.none
  | p :: t, k => if p.1 = k then Option.some p.2 else hashFind t k

/-- `singleton_hash` from `ser.rs`: a one-entry Mapping node. -/
def singleton_hash (k v : Yaml) : Yaml :=
  Yaml.Hash (hashInsert [] k v)

theorem singleton_hash_eq (k v : Yaml) : singleton_hash k v = Yaml.Hash [(k, v)] := by
  simp [singleton_hash, hashInsert]

theorem hashInsert_keys (h : Hash) (k v : Yaml) :
    (hashInsert h k v).map Prod.fst =
      if ∃ p ∈ h, p.1 = k then h.map Prod.fst else h.map Prod.fst ++ [k] := by
  unfold hashInsert
  split
  · simp only [List.map_map, if_pos ‹_›]
    congr 1
    funext p
    by_cases hp : p.1 = k <;> simp [hp]
  · simp [if_neg ‹_›]

theorem hashInsert_of_not_mem (h : Hash) (k v : Yaml)
    (hk : ¬ ∃ p ∈ h, p.1 = k) : hashInsert h k v = h ++ [(k, v)] := by
  simp [hashInsert, hk]

theorem hashFind_replaceAll (h : Hash) (k v k' : Yaml) :
    hashFind (h.map (fun p => if p.1 = k then (p.1, v) else p)) k' =
      if k' = k then (hashFind h k).map (fun _ => v) else hashFind h k' := by
  induction h with
  | nil => by_cases hk : k' = k <;> simp [hashFind, hk]
  | cons p t ih =>
    by_cases hp : p.1 = k
    · by_cases hk : k' = k
      · simp [hashFind, hp, hk]
      · have hk2 : ¬ k = k' := fun hc => hk hc.symm
        have hpk' : ¬ p.1 = k' := fun hc => hk (by rw [← hc, hp])
        simp [hashFind, hp, hk, hk2, hpk', ih]
    · by_cases hpk' : p.1 = k'
      · have hk : ¬ k' = k := fun hc => hp (by rw [hpk', hc])
        simp [hashFind, hp, hpk', hk]
      · simp [hashFind, hp, hpk', ih]

theorem hashFind_isSome_of_exists (h : Hash) (k : Yaml)
    (hk : ∃ p ∈ h, p.1 = k) : (hashFind h k).isSome = true := by
  induction h with
  | nil => simp at hk
  | cons p t ih =>
    by_cases hp : p.1 = k
    · simp [hashFind, hp]
    · rcases hk with ⟨q, hq, hqk⟩
      rcases List.mem_cons.mp hq with hq1 | hq2
      · exact absurd (hq1 ▸ hqk) hp
      · simp only [hashFind, if_neg hp]
        exact ih ⟨q, hq2, hqk⟩

theorem hashFind_eq_none_of_not_exists (h : Hash) (k : Yaml)
    (hk : ¬ ∃ p ∈ h, p.1 = k) : hashFind h k = Option.none := by
  induction h with
  | nil => rfl
  | cons p t ih =>
    have hp : ¬ p.1 = k := fun hc => hk ⟨p, List.mem_cons_self p t, hc⟩
    simp only [hashFind, if_neg hp]
    exact ih (fun ⟨q, hq, hqk⟩ => hk ⟨q, List.mem_cons_of_mem p hq, hqk⟩)

theorem hashFind_append (h h2 : Hash) (k : Yaml) :
    hashFind (h ++ h2) k =
      match hashFind h k with
      | Option.some v => Option.some v
      | Option.none => hashFind h2 k := by
  induction h with
  | nil => simp [hashFind]
  | cons p t ih =>
    by_cases hp : p.1 = k <;> simp [hashFind, hp, ih]

theorem hashFind_hashInsert (h : Hash) (k v k' : Yaml) :
    hashFind (hashInsert h k v) k' =
      if k' = k then Option.some v else hashFind h k' := by
  unfold hashInsert
  split
  · rw [hashFind_replaceAll]
    by_cases hk : k' = k
    · rcases Option.isSome_iff_exists.mp (hashFind_isSome_of_exists h k ‹_›) with ⟨w, hw⟩
      simp [hk, hw]
    · simp [hk]
  · rw [hashFind_append]
    by_cases hk : k' = k
    · subst hk
      rw [hashFind_eq_none_of_not_exists h k' ‹_›]
      simp [hashFind]
    · have hk2 : ¬ k = k' := fun hc => hk hc.symm
      cases hfind : hashFind h k' <;> simp [hashFind, hfind, hk, hk2]

/-- Building a Mapping's pair list by repeated `hashInsert`, as the map,
struct and struct-variant builders do. -/
def hashOfPairs (l : List (Yaml × Yaml)) : Hash :=
  l.foldl (fun h p => hashInsert h p.1 p.2) []

/-- The serde data model: the shapes a value producer can present to the
`Serializer` through the visitor protocol of `ser.rs` (floats omitted:
their `to_string` rendering is not in scope of any claim). Arguments
mirror the `serialize_*` method parameters, ignored ones included. -/
inductive Value : Type where
  | bool (b : Bool) : Value
  | i64 (v : Int) : Value
  | str (s : String) : Value
  | char (c : Char) : Value
  | bytes (bs : List Nat) : Value
  | unit : Value
  | unitStruct (name : String) : Value
  | unitVariant (name : String) (idx : Nat) (variant : String) : Value
  | newtypeStruct (name : String) (v : Value) : Value
  | newtypeVariant (name : String) (idx : Nat) (variant : String) (v : Value) : Value
  | none : Value
  | some (v : Value) : Value
  | seq (len : Option Nat) (elems : List Value) : Value
  | seqFixed (len : Nat) (elems : List Value) : Value
  | tuple (len : Nat) (elems : List Value) : Value
  | tupleStruct (name : String) (len : Nat) (elems : List Value) : Value
  | tupleVariant (name : String) (idx : Nat) (variant : String) (fields : List Value) : Value
  | map (pairs : List (Value × Value)) : Value
  | struct (name : String) (fields : List (String × Value)) : Value
  | structVariant (name : String) (idx : Nat) (variant : String) (fields : List (String × Value)) : Value

mutual

/-- The converter (`to_yaml` driving `impl ser::Serializer for Serializer`):
one `Yaml` node per value, composite cases assembling the node exactly as
the corresponding builder session does (children pushed in order into an
array, key/value pairs inserted in order into a hash, variant payloads
wrapped by `singleton_hash`). -/
def convert : Value → Yaml
  | .bool b => .Boolean b
  | .i64 v => .Integer v
  | .str s => .String s
  | .char c => .String c.toString
  | .bytes bs => .Array (bs.map (fun b : Nat => .Integer (b : Int)))
  | .unit => .Null
  | .unitStruct _ => .Null
  | .unitVariant _ _ variant => .String variant
  | .newtypeStruct _ v => convert v
  | .newtypeVariant _ _ variant v => singleton_hash (.String variant) (convert v)
  | .none => .Null
  | .some v => convert v
  | .seq _ elems => .Array (convertList elems)
  | .seqFixed _ elems => .Array (convertList elems)
  | .tuple _ elems => .Array (convertList elems)
  | .tupleStruct _ _ elems => .Array (convertList elems)
  | .tupleVariant _ _ variant fields =>
      singleton_hash (.String variant) (.Array (convertList fields))
  | .map pairs => .Hash (hashOfPairs (convertPairs pairs))
  | .struct _ fields => .Hash (hashOfPairs (convertFields fields))
  | .structVariant _ _ variant fields =>
      singleton_hash (.String variant) (.Hash (hashOfPairs (convertFields fields)))

/-- Children of a sequence-shaped value, converted in order. -/
def convertList : List Value → List Yaml
  | [] => []
  | v :: vs => convert v :: convertList vs

/-- Entries of a map-shaped value, both components converted, in order. -/
def convertPairs : List (Value × Value) → List (Yaml × Yaml)
  | [] => []
  | (k, v) :: ps => (convert k, convert v) :: convertPairs ps

/-- Fields of a struct-shaped value: the field name as a String node
(`to_yaml(key)` on a `&str`), the value converted, in order. -/
def convertFields : List (String × Value) → List (Yaml × Yaml)
  | [] => []
  | (n, v) :: fs => (Yaml.String n, convert v) :: convertFields fs

end

theorem convertList_eq_map (l : List Value) : convertList l = l.map convert := by
  induction l with
  | nil => rfl
  | cons v vs ih => simp [convertList, ih]

theorem convertPairs_eq_map (l : List (Value × Value)) :
    convertPairs l = l.map (fun p => (convert p.1, convert p.2)) := by
  induction l with
  | nil => rfl
  | cons p ps ih => obtain ⟨k, v⟩ := p; simp [convertPairs, ih]

theorem convertFields_eq_map (l : List (String × Value)) :
    convertFields l = l.map (fun f => (Yaml.String f.1, convert f.2)) := by
  induction l with
  | nil => rfl
  | cons f fs ih => obtain ⟨n, v⟩ := f; simp [convertFields, ih]

/-- `std::fmt::Error`: a unit struct carrying no information at all. -/
structure FmtError : Type where
  deriving DecidableEq

/-- Modelled from the spec: the emission-engine error of the external
document library (`yaml_rust::EmitError`, not part of the sources); the
variant relevant here wraps the formatter error. -/
inductive EmitError : Type where
  | fmtError (e : FmtError) : EmitError
  deriving DecidableEq

/-- Modelled from the spec (§7): the typed error of this crate
(`src/error.rs` is not among the sources); one kind per error class —
emission failure, text-encoding failure, custom message. -/
inductive Error : Type where
  | emit (e : EmitError) : Error
  | utf8 : Error
  | custom (msg : String) : Error
  deriving DecidableEq

/-- `Result<T>` of `ser.rs` (`Result<T, Error>`). -/
abbrev Result (α : Type) := Except Error α

/-! Scalar `Serializer` methods (`ser.rs` lines 35-107). Fixed-width
machine integers are embedded as `Int`/`Nat`; the Rust casts to `i64` are
spelled out: sign- or zero-extension from a narrower width is exact, and
only `u64 as i64` can change the value, by two's-complement wrap-around. -/

def serialize_bool (v : Bool) : Result Yaml := .ok (.Boolean v)

def serialize_i64 (v : Int) : Result Yaml := .ok (.Integer v)

/-- `i8 as i64` is exact. -/
def serialize_i8 (v : Int) : Result Yaml := serialize_i64 v

/-- `i16 as i64` is exact. -/
def serialize_i16 (v : Int) : Result Yaml := serialize_i64 v

/-- `i32 as i64` is exact. -/
def serialize_i32 (v : Int) : Result Yaml := serialize_i64 v

/-- `u8 as i64` is exact zero-extension. -/
def serialize_u8 (v : Nat) : Result Yaml := serialize_i64 (v : Int)

/-- `u16 as i64` is exact zero-extension. -/
def serialize_u16 (v : Nat) : Result Yaml := serialize_i64 (v : Int)

/-- `u32 as i64` is exact zero-extension. -/
def serialize_u32 (v : Nat) : Result Yaml := serialize_i64 (v : Int)

/-- The Rust cast `u64 as i64`: reinterpret the 64-bit pattern as
two's-complement signed. -/
def u64_as_i64 (v : Nat) : Int :=
  if v % 2 ^ 64 < 2 ^ 63 then ((v % 2 ^ 64 : Nat) : Int)
  else ((v % 2 ^ 64 : Nat) : Int) - 2 ^ 64

def serialize_u64 (v : Nat) : Result Yaml := serialize_i64 (u64_as_i64 v)

def serialize_char (value : Char) : Result Yaml := .ok (.String value.toString)

def serialize_str (value : String) : Result Yaml := .ok (.String value)

def serialize_bytes (value : List Nat) : Result Yaml :=
  .ok (.Array (value.map (fun b : Nat => .Integer (b : Int))))

def serialize_unit : Result Yaml := .ok .Null

def serialize_unit_struct (_name : String) : Result Yaml := serialize_unit

def serialize_unit_variant (_name : String) (_variant_index : Nat)
    (variant : String) : Result Yaml := .ok (.String variant)

def serialize_none : Result Yaml := serialize_unit

/-! Composite builder state machines (`ser.rs` lines 198-344). Each
`serialize_*` constructor method returns the builder's starting state;
the element/field/key/value methods take the child already converted
(the source converts it with `to_yaml` at the call site); `end` is
spelled `end_` (`end` is reserved in Lean). -/

/-- Outcome of an operation that can `panic!`: a panic is an abort of the
whole conversion, distinct from the recoverable `Error` channel. -/
inductive Panics (α : Type) : Type where
  | ok (a : α) : Panics α
  | panic (msg : String) : Panics α
  deriving DecidableEq

structure SerializeArray : Type where
  array : List Yaml
  deriving DecidableEq

structure SerializeTupleVariant : Type where
  name : String
  array : List Yaml
  deriving DecidableEq

structure SerializeMap : Type where
  hash : Hash
  next_key : Option Yaml
  deriving DecidableEq

structure SerializeStruct : Type where
  hash : Hash
  deriving DecidableEq

structure SerializeStructVariant : Type where
  name : String
  hash : Hash
  deriving DecidableEq

/-- `serialize_seq`: the expected-length hint only pre-sizes the vector's
capacity (`Array::with_capacity`), which has no observable effect on its
contents, so the starting state is the empty array either way. -/
def serialize_seq (_len : Option Nat) : SerializeArray := ⟨[]⟩

def serialize_seq_fixed_size (len : Nat) : SerializeArray :=
  serialize_seq (Option.some len)

def serialize_tuple (len : Nat) : SerializeArray :=
  serialize_seq (Option.some len)

def serialize_tuple_struct (_name : String) (len : Nat) : SerializeArray :=
  serialize_seq (Option.some len)

def serialize_tuple_variant (_enum : String) (_idx : Nat) (variant : String)
    (_len : Nat) : SerializeTupleVariant := ⟨variant, []⟩

def serialize_map (_len : Option Nat) : SerializeMap := ⟨[], Option.none⟩

def serialize_struct (_name : String) (_len : Nat) : SerializeStruct := ⟨[]⟩

def serialize_struct_variant (_enum : String) (_idx : Nat) (variant : String)
    (_len : Nat) : SerializeStructVariant := ⟨variant, []⟩

def SerializeArray.serialize_element (st : SerializeArray) (elem : Yaml) :
    SerializeArray := ⟨st.array ++ [elem]⟩

def SerializeArray.end_ (st : SerializeArray) : Yaml := Yaml.Array st.array

def SerializeTupleVariant.serialize_field (st : SerializeTupleVariant)
    (v : Yaml) : SerializeTupleVariant := ⟨st.name, st.array ++ [v]⟩

def SerializeTupleVariant.end_ (st : SerializeTupleVariant) : Yaml :=
  singleton_hash (Yaml.String st.name) (Yaml.Array st.array)

def SerializeMap.serialize_key (st : SerializeMap) (key : Yaml) : SerializeMap :=
  ⟨st.hash, Option.some key⟩

/-- `SerializeMap::serialize_value`: `self.next_key.take()` — a pending
key completes a pair inserted into the hash; with no pending key the
source runs `panic!("serialize_value called before serialize_key")`. -/
def SerializeMap.serialize_value (st : SerializeMap) (value : Yaml) :
    Panics SerializeMap :=
  match st.next_key with
  | Option.some key => Panics.ok ⟨hashInsert st.hash key value, Option.none⟩
  | Option.none => Panics.panic "serialize_value called before serialize_key"

def SerializeMap.end_ (st : SerializeMap) : Yaml := Yaml.Hash st.hash

def SerializeStruct.serialize_field (st : SerializeStruct) (key : String)
    (value : Yaml) : SerializeStruct :=
  ⟨hashInsert st.hash (Yaml.String key) value⟩

def SerializeStruct.end_ (st : SerializeStruct) : Yaml := Yaml.Hash st.hash

def SerializeStructVariant.serialize_field (st : SerializeStructVariant)
    (field : String) (v : Yaml) : SerializeStructVariant :=
  ⟨st.name, hashInsert st.hash (Yaml.String field) v⟩

def SerializeStructVariant.end_ (st : SerializeStructVariant) : Yaml :=
  singleton_hash (Yaml.String st.name) (Yaml.Hash st.hash)

/-- One call of a map-builder session: set the next key, or set the value
for the pending key. -/
inductive MapOp : Type where
  | key (k : Yaml) : MapOp
  | value (v : Yaml) : MapOp
  deriving DecidableEq

/-- Run a map-builder session call by call; a panic aborts the rest. -/
def runMapOps (st : SerializeMap) : List MapOp → Panics SerializeMap
  | [] => Panics.ok st
  | MapOp.key k :: rest => runMapOps (st.serialize_key k) rest
  | MapOp.value v :: rest =>
    match st.serialize_value v with
    | Panics.ok st' => runMapOps st' rest
    | Panics.panic m => Panics.panic m

/-- The alternating set-key / set-value call stream for a pair list
(what `serialize_entry` produces for each entry). -/
def entryOps (pairs : List (Yaml × Yaml)) : List MapOp :=
  pairs.flatMap (fun p => [MapOp.key p.1, MapOp.value p.2])

/-- Run a struct-builder session over a list of named fields. -/
def runStructFields (st : SerializeStruct) (fields : List (String × Yaml)) :
    SerializeStruct :=
  fields.foldl (fun st f => st.serialize_field f.1 f.2) st

/-- Run a struct-variant-builder session over a list of named fields. -/
def runStructVariantFields (st : SerializeStructVariant)
    (fields : List (String × Yaml)) : SerializeStructVariant :=
  fields.foldl (fun st f => st.serialize_field f.1 f.2) st

/-- Run a sequence-builder session over a list of elements. -/
def runArrayElems (st : SerializeArray) (elems : List Yaml) : SerializeArray :=
  elems.foldl (fun st e => st.serialize_element e) st

/-- Run a tuple-variant-builder session over a list of fields. -/
def runTupleVariantFields (st : SerializeTupleVariant) (fields : List Yaml) :
    SerializeTupleVariant :=
  fields.foldl (fun st v => st.serialize_field v) st

/-! The emission adapter (`to_writer` with `FmtToIoWriter`, `ser.rs`
lines 346-389). The byte sink and the emission engine are external; the
sink is modelled as a script of per-write outcomes plus a log of the
accepted chunks, and the engine as a black box that writes a sequence of
text chunks for the document. -/

/-- Modelled from the spec: `std::io::Error`, the sink's rejection cause —
unlike `fmt::Error` it carries information, abstracted as a numeric code. -/
structure IoError : Type where
  code : Nat
  deriving DecidableEq

/-- Modelled from the spec: a caller-supplied writable byte sink
(`W: io::Write`). `outcomes` scripts the result of each successive write
call (`Option.none` = the write is accepted); once the script runs out,
writes are accepted. `written` logs the accepted chunks. -/
structure Sink : Type where
  outcomes : List (Option IoError)
  written : List String
  deriving DecidableEq

/-- Modelled from the spec: one `writer.write` call against the sink. -/
def Sink.write (s : Sink) (chunk : String) : Except IoError Sink :=
  match s.outcomes with
  | [] => Except.ok ⟨[], s.written ++ [chunk]⟩
  | Option.none :: rest => Except.ok ⟨rest, s.written ++ [chunk]⟩
  | Option.some e :: _ => Except.error e

/-- `FmtToIoWriter::write_str` (`ser.rs` 383-388): forward the text bytes
to the sink; if the sink's write `is_err()`, return `Err(fmt::Error)` —
the unit `fmt::Error`, so the `io::Error` value itself is dropped here. -/
def write_str (s : Sink) (chunk : String) : Except FmtError Sink :=
  match s.write chunk with
  | Except.error _ => Except.error ⟨⟩
  | Except.ok s' => Except.ok s'

mutual

/-- Modelled from the spec: the chunk stream the external emission engine
(`YamlEmitter`) writes for a document — a marker chunk followed by a
simple flattened rendering. The exact layout is the engine's business; the
claims depend only on it being a sequence of `write_str` calls. -/
def emitChunks : Yaml → List String
  | .Null => ["~"]
  | .Boolean b => [cond b "true" "false"]
  | .Integer n => [toString n]
  | .Real s => [s]
  | .String s => [s]
  | .Array xs => "- " :: emitChunksList xs
  | .Hash ps => ": " :: emitChunksPairs ps

def emitChunksList : List Yaml → List String
  | [] => []
  | x :: xs => emitChunks x ++ emitChunksList xs

def emitChunksPairs : List (Yaml × Yaml) → List String
  | [] => []
  | (k, v) :: t => emitChunks k ++ emitChunks v ++ emitChunksPairs t

end

/-- Write a chunk stream through the adapter, stopping at the first
failure (no write is retried, nothing is written past a failure). -/
def writeChunks : List String → Sink → Except FmtError Sink
  | [], s => Except.ok s
  | c :: cs, s =>
    match write_str s c with
    | Except.error e => Except.error e
    | Except.ok s' => writeChunks cs s'

/-- Modelled from the spec: `YamlEmitter::new(&mut writer_adapter).dump(&doc)`
of the external engine — emit the document's chunks through the adapter;
the adapter's `fmt::Error` surfaces as the engine's emit error. -/
def dump (doc : Yaml) (writer : Sink) : Except FmtError Sink :=
  writeChunks (emitChunks doc) writer

/-- `to_writer` (`ser.rs` 346-356): convert the value, then dump the
document into the sink through the adapter; an engine failure is wrapped
into the typed `Error` (`EmitError::FmtError` via `From`). The returned
sink models the mutation of the caller's writer. -/
def to_writer (writer : Sink) (value : Value) : Except Error Sink :=
  let doc := convert value
  match dump doc writer with
  | Except.error fe => Except.error (Error.emit (EmitError.fmtError fe))
  | Except.ok s' => Except.ok s'

/-- The value a pair list associates with a key after last-write-wins
accumulation: the value of the last pair supplied for that key. -/
def lastVal (pairs : List (Yaml × Yaml)) (k : Yaml) : Option Yaml :=
  pairs.foldl (fun acc p => if p.1 = k then Option.some p.2 else acc) Option.none

/-! Helper lemmas about builder runs and `hashInsert` folds. -/

theorem runArrayElems_array (elems : List Yaml) :
    ∀ st : SerializeArray, (runArrayElems st elems).array = st.array ++ elems := by
  induction elems with
  | nil => intro st; simp [runArrayElems]
  | cons e es ih =>
    intro st
    simpa [runArrayElems, SerializeArray.serialize_element] using ih ⟨st.array ++ [e]⟩

theorem runTupleVariantFields_spec (fields : List Yaml) :
    ∀ st : SerializeTupleVariant,
      runTupleVariantFields st fields = ⟨st.name, st.array ++ fields⟩ := by
  induction fields with
  | nil => intro st; simp [runTupleVariantFields]
  | cons f fs ih =>
    intro st
    simpa [runTupleVariantFields, SerializeTupleVariant.serialize_field]
      using ih ⟨st.name, st.array ++ [f]⟩

theorem runStructFields_hash (fields : List (String × Yaml)) :
    ∀ st : SerializeStruct,
      (runStructFields st fields).hash =
        (fields.map (fun f => (Yaml.String f.1, f.2))).foldl
          (fun h p => hashInsert h p.1 p.2) st.hash := by
  induction fields with
  | nil => intro st; simp [runStructFields]
  | cons f fs ih =>
    intro st
    simpa [runStructFields, SerializeStruct.serialize_field]
      using ih ⟨hashInsert st.hash (Yaml.String f.1) f.2⟩

theorem runStructVariantFields_spec (fields : List (String × Yaml)) :
    ∀ st : SerializeStructVariant,
      runStructVariantFields st fields =
        ⟨st.name,
         (fields.map (fun f => (Yaml.String f.1, f.2))).foldl
           (fun h p => hashInsert h p.1 p.2) st.hash⟩ := by
  induction fields with
  | nil => intro st; simp [runStructVariantFields]
  | cons f fs ih =>
    intro st
    simpa [runStructVariantFields, SerializeStructVariant.serialize_field]
      using ih ⟨st.name, hashInsert st.hash (Yaml.String f.1) f.2⟩

theorem runMapOps_entryOps (pairs : List (Yaml × Yaml)) :
    ∀ h : Hash,
      runMapOps ⟨h, Option.none⟩ (entryOps pairs) =
        Panics.ok ⟨pairs.foldl (fun h p => hashInsert h p.1 p.2) h, Option.none⟩ := by
  induction pairs with
  | nil => intro h; simp [entryOps, runMapOps]
  | cons p ps ih =>
    intro h
    simpa [entryOps, runMapOps, SerializeMap.serialize_key,
      SerializeMap.serialize_value] using ih (hashInsert h p.1 p.2)

theorem foldl_hashInsert_append (pairs : List (Yaml × Yaml)) :
    ∀ h : Hash, (∀ p ∈ pairs, ∀ q ∈ h, q.1 ≠ p.1) →
      (pairs.map Prod.fst).Nodup →
      pairs.foldl (fun h p => hashInsert h p.1 p.2) h = h ++ pairs := by
  induction pairs with
  | nil => intro h _ _; simp
  | cons p ps ih =>
    intro h hfresh hnd
    have hnomem : ¬ ∃ q ∈ h, q.1 = p.1 := by
      rintro ⟨q, hq, hqk⟩
      exact hfresh p (List.mem_cons_self p ps) q hq hqk
    have hstep : hashInsert h p.1 p.2 = h ++ [p] :=
      hashInsert_of_not_mem h p.1 p.2 hnomem
    have hnd' := (List.nodup_cons.mp hnd)
    have hfresh' : ∀ r ∈ ps, ∀ q ∈ h ++ [p], q.1 ≠ r.1 := by
      intro r hr q hq
      rcases List.mem_append.mp hq with hq1 | hq2
      · exact hfresh r (List.mem_cons_of_mem p hr) q hq1
      · have : q = p := by simpa using hq2
        subst this
        intro hc
        exact hnd'.1 (hc ▸ List.mem_map_of_mem Prod.fst hr)
    calc (p :: ps).foldl (fun h p => hashInsert h p.1 p.2) h
        = ps.foldl (fun h p => hashInsert h p.1 p.2) (h ++ [p]) := by
          simp [hstep]
      _ = (h ++ [p]) ++ ps := ih (h ++ [p]) hfresh' hnd'.2
      _ = h ++ p :: ps := by simp

theorem hashInsert_keys_nodup (h : Hash) (k v : Yaml)
    (hnd : (h.map Prod.fst).Nodup) :
    ((hashInsert h k v).map Prod.fst).Nodup := by
  rw [hashInsert_keys]
  split
  · exact hnd
  · rw [List.nodup_append]
    refine ⟨hnd, List.nodup_singleton k, ?_⟩
    intro a ha hb
    have hak : a = k := by simpa using hb
    rcases List.mem_map.mp ha with ⟨p, hp, hpk⟩
    exact ‹¬ ∃ p ∈ h, p.1 = k› ⟨p, hp, hak ▸ hpk⟩

theorem foldl_hashInsert_keys_nodup (pairs : List (Yaml × Yaml)) :
    ∀ h : Hash, (h.map Prod.fst).Nodup →
      ((pairs.foldl (fun h p => hashInsert h p.1 p.2) h).map Prod.fst).Nodup := by
  induction pairs with
  | nil => intro h hnd; simpa using hnd
  | cons p ps ih =>
    intro h hnd
    simpa using ih (hashInsert h p.1 p.2) (hashInsert_keys_nodup h p.1 p.2 hnd)

theorem hashFind_foldl_hashInsert (pairs : List (Yaml × Yaml)) :
    ∀ (h : Hash) (k : Yaml),
      hashFind (pairs.foldl (fun h p => hashInsert h p.1 p.2) h) k =
        pairs.foldl (fun acc p => if p.1 = k then Option.some p.2 else acc)
          (hashFind h k) := by
  induction pairs with
  | nil => intro h k; simp
  | cons p ps ih =>
    intro h k
    have := ih (hashInsert h p.1 p.2) k
    rw [List.foldl_cons, this, hashFind_hashInsert, List.foldl_cons]
    by_cases hp : p.1 = k
    · simp [hp]
    · have : ¬ k = p.1 := fun hc => hp hc.symm
      simp [hp, this]

theorem mem_iff_hashFind (h : Hash) (hnd : (h.map Prod.fst).Nodup)
    (k v : Yaml) : (k, v) ∈ h ↔ hashFind h k = Option.some v := by
  induction h with
  | nil => simp [hashFind]
  | cons p t ih =>
    rw [List.map_cons, List.nodup_cons] at hnd
    by_cases hp : p.1 = k
    · have hnot : (k, v) ∉ t := by
        intro hmem
        exact hnd.1 (hp ▸ List.mem_map_of_mem Prod.fst hmem)
      obtain ⟨pk, pv⟩ := p
      simp only at hp
      subst hp
      simp [hashFind, List.mem_cons, hnot, eq_comm, Prod.ext_iff]
    · have hne : (k, v) ≠ p := by
        intro hc
        exact hp (by rw [← hc])
      simp [hashFind, List.mem_cons, hne, hp, ih hnd.2]

theorem hashOfPairs_eq_self (l : List (Yaml × Yaml))
    (hnd : (l.map Prod.fst).Nodup) : hashOfPairs l = l := by
  have h := foldl_hashInsert_append l []
    (fun p _ q hq => absurd hq (List.not_mem_nil q)) hnd
  simpa [hashOfPairs] using h

theorem map_stringfst_keys_nodup {α β : Type} (fields : List (String × α))
    (g : α → β) (hnd : (fields.map Prod.fst).Nodup) :
    ((fields.map (fun f => (Yaml.String f.1, g f.2))).map Prod.fst).Nodup := by
  have hmap : (fields.map (fun f => (Yaml.String f.1, g f.2))).map Prod.fst
      = (fields.map Prod.fst).map Yaml.String := by
    simp [List.map_map]
  rw [hmap]
  exact hnd.map (fun a b hab => Yaml.String.inj hab)

/-- C1: every enum-shaped input converts to the mandated node shape — a
unit variant to a String node holding the variant name; a newtype variant
to a singleton Mapping from the variant name to the converted field; a
tuple variant to a singleton Mapping from the variant name to a Sequence
of the converted fields in positional order; a struct variant to a
singleton Mapping from the variant name to a Mapping of field name to
converted value (stated both for `convert` and for the underlying
`SerializeTupleVariant` / `SerializeStructVariant` builder sessions). -/
theorem enum_variant_node_shapes (name : String) (idx : Nat) (variant : String)
    (v : Value) (fields : List Value) (named : List (String × Value))
    (yfields : List Yaml) (ynamed : List (String × Yaml)) (len : Nat) :
    convert (.unitVariant name idx variant) = Yaml.String variant
    ∧ convert (.newtypeVariant name idx variant v) =
        Yaml.Hash [(Yaml.String variant, convert v)]
    ∧ convert (.tupleVariant name idx variant fields) =
        Yaml.Hash [(Yaml.String variant, Yaml.Array (fields.map convert))]
    ∧ (runTupleVariantFields (serialize_tuple_variant name idx variant len)
        yfields).end_ = Yaml.Hash [(Yaml.String variant, Yaml.Array yfields)]
    ∧ ((named.map Prod.fst).Nodup →
        convert (.structVariant name idx variant named) =
          Yaml.Hash [(Yaml.String variant,
            Yaml.Hash (named.map (fun f => (Yaml.String f.1, convert f.2))))])
    ∧ ((ynamed.map Prod.fst).Nodup →
        (runStructVariantFields (serialize_struct_variant name idx variant len)
          ynamed).end_ =
          Yaml.Hash [(Yaml.String variant,
            Yaml.Hash (ynamed.map (fun f => (Yaml.String f.1, f.2))))]) := by
  refine ⟨by simp [convert], by simp [convert, singleton_hash_eq], ?_, ?_, ?_, ?_⟩
  · simp [convert, singleton_hash_eq, convertList_eq_map]
  · rw [runTupleVariantFields_spec]
    simp [SerializeTupleVariant.end_, serialize_tuple_variant, singleton_hash_eq]
  · intro hnd
    have hkeys := map_stringfst_keys_nodup named convert hnd
    simp [convert, singleton_hash_eq, convertFields_eq_map,
      hashOfPairs_eq_self _ hkeys]
  · intro hnd
    have hkeys := map_stringfst_keys_nodup ynamed (fun x => x) hnd
    rw [runStructVariantFields_spec]
    show singleton_hash (Yaml.String variant)
        (Yaml.Hash ((ynamed.map (fun f => (Yaml.String f.1, f.2))).foldl
          (fun h p => hashInsert h p.1 p.2) [])) = _
    rw [show ((ynamed.map (fun f => (Yaml.String f.1, f.2))).foldl
          (fun h p => hashInsert h p.1 p.2) []) =
        hashOfPairs (ynamed.map (fun f => (Yaml.String f.1, f.2))) from rfl,
      hashOfPairs_eq_self _ hkeys, singleton_hash_eq]

/-- Closed instance of C1: the four enum shapes at concrete inputs. -/
theorem enum_variant_node_shapes_witness :
    convert (.structVariant "E" 0 "Qux" [("a", Value.i64 1)]) =
      Yaml.Hash [(Yaml.String "Qux", Yaml.Hash [(Yaml.String "a", Yaml.Integer 1)])] :=
  (enum_variant_node_shapes "E" 0 "Qux" (Value.i64 7) [] [("a", Value.i64 1)]
    [] [] 1).2.2.2.2.1 (by decide)

/-- C2: a map-builder session fed K distinct keys through alternating
set-key / set-value calls ends in a Mapping holding exactly those K pairs
in the order supplied (insertion order, not sorted); likewise a
struct-builder session keyed by its String field names. -/
theorem map_struct_builder_insertion_order (pairs : List (Yaml × Yaml))
    (fields : List (String × Yaml)) (len : Option Nat) (name : String) (n : Nat) :
    ((pairs.map Prod.fst).Nodup →
      runMapOps (serialize_map len) (entryOps pairs) =
          Panics.ok ⟨pairs, Option.none⟩
      ∧ SerializeMap.end_ ⟨pairs, Option.none⟩ = Yaml.Hash pairs)
    ∧ ((fields.map Prod.fst).Nodup →
      (runStructFields (serialize_struct name n) fields).end_ =
        Yaml.Hash (fields.map (fun f => (Yaml.String f.1, f.2)))) := by
  constructor
  · intro hnd
    refine ⟨?_, rfl⟩
    have h1 := runMapOps_entryOps pairs []
    have h2 : pairs.foldl (fun h p => hashInsert h p.1 p.2) [] = pairs :=
      hashOfPairs_eq_self pairs hnd
    rw [show serialize_map len = (⟨[], Option.none⟩ : SerializeMap) from rfl,
      h1, h2]
  · intro hnd
    have hkeys := map_stringfst_keys_nodup fields (fun x => x) hnd
    show Yaml.Hash (runStructFields (serialize_struct name n) fields).hash = _
    rw [runStructFields_hash]
    rw [show ((fields.map (fun f => (Yaml.String f.1, f.2))).foldl
          (fun h p => hashInsert h p.1 p.2) (serialize_struct name n).hash) =
        hashOfPairs (fields.map (fun f => (Yaml.String f.1, f.2))) from rfl,
      hashOfPairs_eq_self _ hkeys]

/-- Closed instance of C2: two distinct (non-String) keys come out in
supply order, not sorted. -/
theorem map_struct_builder_insertion_order_witness :
    runMapOps (serialize_map Option.none)
        (entryOps [(Yaml.Integer 9, Yaml.String "x"), (Yaml.Integer 1, Yaml.Integer 2)]) =
      Panics.ok ⟨[(Yaml.Integer 9, Yaml.String "x"), (Yaml.Integer 1, Yaml.Integer 2)],
        Option.none⟩ :=
  ((map_struct_builder_insertion_order
    [(Yaml.Integer 9, Yaml.String "x"), (Yaml.Integer 1, Yaml.Integer 2)]
    [] Option.none "S" 0).1 (by decide)).1

/-- C3: calling set-value on a map builder with no pending key is fatal —
the source `panic!`s (modelled as the `Panics.panic` outcome, distinct
from the recoverable `Error` channel), no pair is inserted and the
session aborts; with a key pending the fatal branch is unreachable and
the completed pair is inserted. -/
theorem serialize_value_no_pending_key_panics (st : SerializeMap) (v : Yaml) :
    (st.next_key = Option.none →
      st.serialize_value v =
          Panics.panic "serialize_value called before serialize_key"
      ∧ ∀ st' : SerializeMap, st.serialize_value v ≠ Panics.ok st')
    ∧ (∀ k, st.next_key = Option.some k →
      st.serialize_value v = Panics.ok ⟨hashInsert st.hash k v, Option.none⟩)
    ∧ (∀ rest, st.next_key = Option.none →
      runMapOps st (MapOp.value v :: rest) =
        Panics.panic "serialize_value called before serialize_key") := by
  refine ⟨?_, ?_, ?_⟩
  · intro hnone
    refine ⟨?_, ?_⟩
    · simp [SerializeMap.serialize_value, hnone]
    · intro st'
      simp [SerializeMap.serialize_value, hnone]
  · intro k hsome
    simp [SerializeMap.serialize_value, hsome]
  · intro rest hnone
    simp [runMapOps, SerializeMap.serialize_value, hnone]

/-- Closed instance of C3: set-value on a fresh map builder panics. -/
theorem serialize_value_no_pending_key_panics_witness :
    SerializeMap.serialize_value ⟨[], Option.none⟩ Yaml.Null =
      Panics.panic "serialize_value called before serialize_key" :=
  ((serialize_value_no_pending_key_panics ⟨[], Option.none⟩ Yaml.Null).1 rfl).1

/-- C4: every supported integer width converts to the single Int node:
narrower signed/unsigned widths exactly (their casts to `i64` are exact),
and a 64-bit unsigned input `u` as `u` reinterpreted as two's-complement
signed 64-bit — congruent to `u` mod `2^64`, inside `[-2^63, 2^63-1]`,
equal to `u` iff `u ≤ 2^63 - 1`, and silently wrapped (not an error)
above that. -/
theorem integer_inputs_normalize_to_int (i : Int) (u : Nat) :
    serialize_i8 i = Except.ok (Yaml.Integer i)
    ∧ serialize_i16 i = Except.ok (Yaml.Integer i)
    ∧ serialize_i32 i = Except.ok (Yaml.Integer i)
    ∧ serialize_i64 i = Except.ok (Yaml.Integer i)
    ∧ serialize_u8 u = Except.ok (Yaml.Integer (u : Int))
    ∧ serialize_u16 u = Except.ok (Yaml.Integer (u : Int))
    ∧ serialize_u32 u = Except.ok (Yaml.Integer (u : Int))
    ∧ serialize_u64 u = Except.ok (Yaml.Integer (u64_as_i64 u))
    ∧ (u < 2 ^ 64 →
        (-(2 ^ 63) ≤ u64_as_i64 u ∧ u64_as_i64 u < 2 ^ 63)
        ∧ u64_as_i64 u % (2 ^ 64 : Int) = (u : Int) % (2 ^ 64 : Int)
        ∧ (u ≤ 2 ^ 63 - 1 → u64_as_i64 u = (u : Int))
        ∧ (2 ^ 63 - 1 < u →
            u64_as_i64 u = (u : Int) - 2 ^ 64 ∧ u64_as_i64 u ≠ (u : Int))) := by
  refine ⟨rfl, rfl, rfl, rfl, rfl, rfl, rfl, rfl, ?_⟩
  intro hu
  have hrw : u64_as_i64 u = if u < 2 ^ 63 then (u : Int) else (u : Int) - 2 ^ 64 := by
    unfold u64_as_i64
    rw [Nat.mod_eq_of_lt hu]
  rw [hrw]
  by_cases hc : u < 2 ^ 63
  · rw [if_pos hc]
    exact ⟨⟨by omega, by omega⟩, rfl, fun _ => rfl,
      fun hgt => absurd hgt (by omega)⟩
  · rw [if_neg hc]
    exact ⟨⟨by omega, by omega⟩, by omega,
      fun hle => absurd hle (by omega), fun _ => ⟨rfl, by omega⟩⟩

/-- Closed instance of C4: `2^63` wraps to a different (negative) value. -/
theorem integer_inputs_normalize_to_int_witness :
    u64_as_i64 (2 ^ 63) = ((2 ^ 63 : Nat) : Int) - 2 ^ 64
    ∧ u64_as_i64 (2 ^ 63) ≠ ((2 ^ 63 : Nat) : Int) :=
  ((integer_inputs_normalize_to_int 0 (2 ^ 63)).2.2.2.2.2.2.2.2
    (by norm_num)).2.2.2 (by norm_num)

/-- C5: the optional and newtype wrappers are identity under conversion —
`Some` delegates to the inner value, `None` converts to Null (the same
node as unit), and a newtype struct delegates to its inner value
whatever its name. -/
theorem option_and_newtype_transparent (v : Value) (name : String) :
    convert (.some v) = convert v
    ∧ convert .none = Yaml.Null
    ∧ convert .none = convert .unit
    ∧ convert (.newtypeStruct name v) = convert v :=
  ⟨by simp [convert], rfl, rfl, by simp [convert]⟩

/-- C6: every sequence-shaped input (sequence, fixed-size sequence,
tuple, tuple struct) converts to a Sequence node with exactly the
converted elements in original order, and the expected-length pre-sizing
hint has no effect on the starting builder state or the resulting node. -/
theorem sequence_shapes_preserve_children (len : Option Nat) (n : Nat)
    (name : String) (elems : List Value) (yelems : List Yaml) :
    convert (.seq len elems) = Yaml.Array (elems.map convert)
    ∧ convert (.seqFixed n elems) = Yaml.Array (elems.map convert)
    ∧ convert (.tuple n elems) = Yaml.Array (elems.map convert)
    ∧ convert (.tupleStruct name n elems) = Yaml.Array (elems.map convert)
    ∧ (elems.map convert).length = elems.length
    ∧ convert (.seq len elems) = convert (.seq Option.none elems)
    ∧ serialize_seq len = serialize_seq Option.none
    ∧ (runArrayElems (serialize_seq len) yelems).end_ = Yaml.Array yelems := by
  refine ⟨?_, ?_, ?_, ?_, by simp, ?_, rfl, ?_⟩
  · simp [convert, convertList_eq_map]
  · simp [convert, convertList_eq_map]
  · simp [convert, convertList_eq_map]
  · simp [convert, convertList_eq_map]
  · simp [convert]
  · show Yaml.Array (runArrayElems ⟨[]⟩ yelems).array = _
    rw [runArrayElems_array]
    simp

/-- C7: a byte-sequence input of length N converts to a Sequence node of
exactly N Int children, the i-th holding the i-th byte's value (0-255)
in original order — an Array node, never a distinct binary scalar. -/
theorem bytes_convert_to_int_sequence (bs : List Nat) (hb : ∀ b ∈ bs, b < 256) :
    convert (.bytes bs) = Yaml.Array (bs.map (fun b : Nat => Yaml.Integer (b : Int)))
    ∧ serialize_bytes bs =
        Except.ok (Yaml.Array (bs.map (fun b : Nat => Yaml.Integer (b : Int))))
    ∧ (bs.map (fun b : Nat => Yaml.Integer (b : Int))).length = bs.length
    ∧ (∀ i : Nat, (bs.map (fun b : Nat => Yaml.Integer (b : Int)))[i]? =
        (bs[i]?).map (fun b : Nat => Yaml.Integer (b : Int)))
    ∧ (∀ y ∈ bs.map (fun b : Nat => Yaml.Integer (b : Int)),
        ∃ b : Nat, b ≤ 255 ∧ y = Yaml.Integer (b : Int)) := by
  refine ⟨by simp [convert], rfl, by simp, ?_, ?_⟩
  · intro i
    simp
  · intro y hy
    rcases List.mem_map.mp hy with ⟨b, hbmem, rfl⟩
    exact ⟨b, by have := hb b hbmem; omega, rfl⟩

/-- Closed instance of C7: `[0, 255]` converts to `[Int 0, Int 255]`. -/
theorem bytes_convert_to_int_sequence_witness :
    convert (.bytes [0, 255]) = Yaml.Array [Yaml.Integer 0, Yaml.Integer 255] := by
  have h := (bytes_convert_to_int_sequence [0, 255] (by decide)).1
  simpa using h

theorem runMapOps_append (ops1 ops2 : List MapOp) :
    ∀ st, runMapOps st (ops1 ++ ops2) =
      match runMapOps st ops1 with
      | Panics.ok st1 => runMapOps st1 ops2
      | Panics.panic m => Panics.panic m := by
  induction ops1 with
  | nil => intro st; simp [runMapOps]
  | cons op rest ih =>
    intro st
    cases op with
    | key k => simp [runMapOps, ih]
    | value v =>
      cases hv : st.serialize_value v with
      | ok st' => simp [runMapOps, hv, ih]
      | panic m => simp [runMapOps, hv]

theorem mem_keys_hashInsert (h : Hash) (k v k' : Yaml)
    (hmem : k' ∈ (hashInsert h k v).map Prod.fst) :
    k' ∈ h.map Prod.fst ∨ k' = k := by
  rw [hashInsert_keys] at hmem
  split at hmem
  · exact Or.inl hmem
  · rcases List.mem_append.mp hmem with h1 | h2
    · exact Or.inl h1
    · exact Or.inr (by simpa using h2)

theorem runMapOps_keys_from_ops (ops : List MapOp) :
    ∀ st st', runMapOps st ops = Panics.ok st' →
      ∀ k', k' ∈ st'.hash.map Prod.fst →
        k' ∈ st.hash.map Prod.fst ∨ st.next_key = Option.some k'
          ∨ MapOp.key k' ∈ ops := by
  induction ops with
  | nil =>
    intro st st' hrun k' hk
    simp only [runMapOps, Panics.ok.injEq] at hrun
    subst hrun
    exact Or.inl hk
  | cons op rest ih =>
    intro st st' hrun k' hk
    cases op with
    | key k =>
      simp only [runMapOps] at hrun
      rcases ih _ _ hrun k' hk with h1 | h2 | h3
      · exact Or.inl h1
      · have hkk : k = k' := by
          simpa [SerializeMap.serialize_key] using h2
        exact Or.inr (Or.inr (by simp [hkk]))
      · exact Or.inr (Or.inr (List.mem_cons_of_mem _ h3))
    | value v =>
      simp only [runMapOps] at hrun
      cases hnk : st.next_key with
      | none =>
        simp [SerializeMap.serialize_value, hnk] at hrun
      | some kk =>
        simp only [SerializeMap.serialize_value, hnk] at hrun
        rcases ih _ _ hrun k' hk with h1 | h2 | h3
        · rcases mem_keys_hashInsert _ _ _ _ h1 with ha | hb
          · exact Or.inl ha
          · exact Or.inr (Or.inl (by subst hb; rfl))
        · simp at h2
        · exact Or.inr (Or.inr (List.mem_cons_of_mem _ h3))

/-- C9: a Mapping produced by the map, struct or struct-variant builder
has structurally distinct keys; a key supplied more than once yields
exactly one pair, holding the last value supplied — no duplicate-key
pairs appear (the host map collection deduplicates on insert). -/
theorem mapping_builders_unique_keys_last_wins (pairs : List (Yaml × Yaml))
    (fields : List (String × Yaml)) (len : Option Nat)
    (name enm variant : String) (idx n : Nat) :
    runMapOps (serialize_map len) (entryOps pairs) =
        Panics.ok ⟨hashOfPairs pairs, Option.none⟩
    ∧ ((hashOfPairs pairs).map Prod.fst).Nodup
    ∧ (∀ k v, (k, v) ∈ hashOfPairs pairs ↔ lastVal pairs k = Option.some v)
    ∧ (runStructFields (serialize_struct name n) fields).end_ =
        Yaml.Hash (hashOfPairs (fields.map (fun f => (Yaml.String f.1, f.2))))
    ∧ (runStructVariantFields (serialize_struct_variant enm idx variant n)
        fields).end_ =
        Yaml.Hash [(Yaml.String variant,
          Yaml.Hash (hashOfPairs (fields.map (fun f => (Yaml.String f.1, f.2)))))] := by
  have hnodup : ((hashOfPairs pairs).map Prod.fst).Nodup :=
    foldl_hashInsert_keys_nodup pairs [] (by simp)
  refine ⟨runMapOps_entryOps pairs [], hnodup, ?_, ?_, ?_⟩
  · intro k v
    rw [mem_iff_hashFind _ hnodup]
    show hashFind (pairs.foldl (fun h p => hashInsert h p.1 p.2) []) k = _ ↔ _
    rw [hashFind_foldl_hashInsert]
    exact Iff.rfl
  · show Yaml.Hash (runStructFields (serialize_struct name n) fields).hash = _
    rw [runStructFields_hash]
    rfl
  · rw [runStructVariantFields_spec]
    show singleton_hash (Yaml.String variant) _ = _
    rw [singleton_hash_eq]
    rfl

/-- C10: ending a map-builder session while a key is pending silently
discards the pending key — `end` returns the Mapping of completed pairs
only, with no error; setting a key overwrites the single pending slot
(at most one key pending), and every key in the accumulated Mapping was
supplied by some set-key call of the session. -/
theorem map_builder_end_discards_pending_key (ops : List MapOp) (k : Yaml)
    (st : SerializeMap)
    (h : runMapOps (serialize_map Option.none) ops = Panics.ok st) :
    runMapOps (serialize_map Option.none) (ops ++ [MapOp.key k]) =
        Panics.ok (st.serialize_key k)
    ∧ (st.serialize_key k).next_key = Option.some k
    ∧ SerializeMap.end_ (st.serialize_key k) = Yaml.Hash st.hash
    ∧ SerializeMap.end_ (st.serialize_key k) = SerializeMap.end_ st
    ∧ (∀ k', k' ∈ (st.serialize_key k).hash.map Prod.fst →
        MapOp.key k' ∈ ops) := by
  refine ⟨?_, rfl, rfl, rfl, ?_⟩
  · rw [runMapOps_append, h]
    simp [runMapOps]
  · intro k' hk'
    rcases runMapOps_keys_from_ops ops _ _ h k' hk' with h1 | h2 | h3
    · simp [serialize_map] at h1
    · simp [serialize_map] at h2
    · exact h3

/-- Closed instance of C10: one completed pair, then a dangling key. -/
theorem map_builder_end_discards_pending_key_witness :
    runMapOps (serialize_map Option.none)
        (entryOps [(Yaml.Integer 1, Yaml.Integer 2)] ++
          [MapOp.key (Yaml.String "pending")]) =
      Panics.ok ⟨[(Yaml.Integer 1, Yaml.Integer 2)],
        Option.some (Yaml.String "pending")⟩ :=
  (map_builder_end_discards_pending_key
    (entryOps [(Yaml.Integer 1, Yaml.Integer 2)]) (Yaml.String "pending")
    ⟨[(Yaml.Integer 1, Yaml.Integer 2)], Option.none⟩ rfl).1

theorem writeChunks_all_accepted (cs : List String) :
    ∀ s : Sink, (∀ o ∈ s.outcomes.take cs.length, o = Option.none) →
      writeChunks cs s =
        Except.ok ⟨s.outcomes.drop cs.length, s.written ++ cs⟩ := by
  induction cs with
  | nil => intro s h; simp [writeChunks]
  | cons c cs ih =>
    intro s h
    cases ho : s.outcomes with
    | nil =>
      have hw : write_str s c = Except.ok ⟨[], s.written ++ [c]⟩ := by
        simp [write_str, Sink.write, ho]
      have := ih ⟨[], s.written ++ [c]⟩ (by simp)
      simp only [writeChunks, hw, this, ho]
      simp
    | cons o rest =>
      have hon : o = Option.none := h o (by simp [ho])
      subst hon
      have hw : write_str s c = Except.ok ⟨rest, s.written ++ [c]⟩ := by
        simp [write_str, Sink.write, ho]
      have hrest : ∀ o ∈ rest.take cs.length, o = Option.none := by
        intro o ho2
        exact h o (by simp [ho, ho2])
      have := ih ⟨rest, s.written ++ [c]⟩ hrest
      simp only [writeChunks, hw, this, ho]
      simp

theorem writeChunks_first_failure (cs : List String) :
    ∀ s : Sink, ((s.outcomes.take cs.length).any (fun o => o.isSome)) = true →
      writeChunks cs s = Except.error ⟨⟩ := by
  induction cs with
  | nil => intro s h; simp at h
  | cons c cs ih =>
    intro s h
    cases ho : s.outcomes with
    | nil => rw [ho] at h; simp at h
    | cons o rest =>
      cases o with
      | some e =>
        have hw : write_str s c = Except.error ⟨⟩ := by
          simp [write_str, Sink.write, ho]
        simp [writeChunks, hw]
      | none =>
        rw [ho] at h
        have hw : write_str s c = Except.ok ⟨rest, s.written ++ [c]⟩ := by
          simp [write_str, Sink.write, ho]
        simp only [writeChunks, hw]
        exact ih ⟨rest, s.written ++ [c]⟩ (by simpa using h)

/-- C8 (amended): if the sink accepts every write of the emission, the
convert-and-write entry point returns success, having attempted each
chunk exactly once in order; if the sink rejects a write, `to_writer`
fails with the typed error `Error::Emit(EmitError::FmtError(fmt::Error))`
— the failure is surfaced and never retried, but the underlying
`io::Error` value itself is discarded at the `write_str` adapter (only
the fact of failure propagates). -/
theorem to_writer_surfaces_write_failure (s : Sink) (v : Value) :
    ((∀ o ∈ s.outcomes.take (emitChunks (convert v)).length, o = Option.none) →
      to_writer s v =
        Except.ok ⟨s.outcomes.drop (emitChunks (convert v)).length,
          s.written ++ emitChunks (convert v)⟩)
    ∧ (((s.outcomes.take (emitChunks (convert v)).length).any
          (fun o => o.isSome)) = true →
      to_writer s v = Except.error (Error.emit (EmitError.fmtError ⟨⟩))) := by
  constructor
  · intro h
    have hrun := writeChunks_all_accepted (emitChunks (convert v)) s h
    simp [to_writer, dump, hrun]
  · intro h
    have hrun := writeChunks_first_failure (emitChunks (convert v)) s h
    simp [to_writer, dump, hrun]

/-- Closed instance of the amended C8: a sink rejecting the first write
makes `to_writer` fail with the typed emit error. -/
theorem to_writer_surfaces_write_failure_witness :
    to_writer ⟨[Option.some ⟨7⟩], []⟩ (.bool true) =
      Except.error (Error.emit (EmitError.fmtError ⟨⟩)) :=
  (to_writer_surfaces_write_failure ⟨[Option.some ⟨7⟩], []⟩ (.bool true)).2
    (by decide)

/-- C8 counterexample: two sinks rejecting the write with DIFFERENT
`io::Error` causes produce the SAME typed error — `write_str` maps any
sink failure to the unit `fmt::Error`, so the error returned by
`to_writer` neither wraps the underlying I/O cause nor propagates it
unchanged; only the fact of failure is surfaced. -/
theorem to_writer_error_does_not_wrap_io_cause :
    (⟨0⟩ : IoError) ≠ ⟨1⟩
    ∧ to_writer ⟨[Option.some ⟨0⟩], []⟩ (.bool true) =
        to_writer ⟨[Option.some ⟨1⟩], []⟩ (.bool true)
    ∧ to_writer ⟨[Option.some ⟨0⟩], []⟩ (.bool true) =
        Except.error (Error.emit (EmitError.fmtError ⟨⟩)) :=
  ⟨by decide, rfl, rfl⟩

end SerdeYaml
